import Mathlib

set_option maxRecDepth 100000

/-
Verification of the point-sampling core of the ImageTriangulation program
(src/ImageTriangulation/ImageTriangulation.py).

Modelling conventions:
* Python floats are modelled as exact rationals (every float is a rational);
  `math.sqrt`-based distance comparisons are modelled by comparing squared
  distances, which is equivalent because square roots are monotone.
* Python `int(...)` (truncation toward zero) on a rational is `truncQ`.
* `random.random()` / `random.uniform` / `random.randint` values are inputs
  ("tapes"): every theorem quantifies over them or fixes concrete values.
* The annulus sampling `radius = minDist*(1+r1)`, `angle = 2*PI*r2`,
  offsets `(radius*cos angle, radius*sin angle)` of
  `Point.generateRandomPointAround` is reparametrized by the offset pair
  `(dx, dy)` itself; as `(r1, r2)` ranges over `[0,1) x [0,1)` the offset
  pair ranges exactly over the annulus
  `minDist^2 <= dx^2+dy^2 < (2*minDist)^2`, so theorems carry that
  hypothesis instead of trigonometric formulas.
-/

/-- Python class `Point` (ImageTriangulation.py:23-40): integer image
coordinates plus a mutable `priority` used only for ordering candidates. -/
structure Point where
  x : ℤ
  y : ℤ
  priority : ℚ := 0
deriving DecidableEq, Repr

instance : Inhabited Point := ⟨⟨0, 0, 0⟩⟩

/-- Squared Euclidean distance; the source's `Point.distance`
(ImageTriangulation.py:54-55) is `sqrt` of this, and every comparison
`distance < minDist` in the source is modelled as `distSq < minDist*minDist`. -/
def distSq (p q : Point) : ℤ :=
  (q.x - p.x) * (q.x - p.x) + (q.y - p.y) * (q.y - p.y)

/-- Python `int(q)`: truncation toward zero. -/
def truncQ (q : ℚ) : ℤ :=
  if 0 ≤ q then ⌊q⌋ else -⌊-q⌋

/-- `Point.generateRandomPointAround` (ImageTriangulation.py:42-52) with the
random radius/angle reparametrized by the real offset pair `(dx, dy)`
(see the file header): the new point is the parent plus the
truncated-toward-zero offsets.  The returned point has priority 0
(the Python `Point` constructor default). -/
def generateRandomPointAround (p : Point) (dx dy : ℚ) : Point :=
  ⟨p.x + truncQ dx, p.y + truncQ dy, 0⟩

/-- Grid cell coordinate of a nonnegative image coordinate `x`:
Python `int(x / cellSize)` with `cellSize = minDist / sqrt 2`
(ImageTriangulation.py:59,65-66), i.e. `⌊x * sqrt 2 / m⌋`.  It is computed
as the number of positive integers `j` with `(j*m)^2 ≤ 2*x^2`, i.e. with
`j ≤ x * sqrt 2 / m`; that count is exactly the floor of `x * sqrt 2 / m`
(for `m ≥ 1` the candidates `j ≤ 2*x` suffice since `x*sqrt 2/m < 2*x+1`).
`gridCoordNat_eq_sqrt` below rewrites it as `Nat.sqrt (2*x^2) / m`. -/
def gridCoordNat (m x : ℕ) : ℕ :=
  (List.range (2 * x + 1)).countP fun k => decide (((k + 1) * m) ^ 2 ≤ 2 * x ^ 2)

/-- Grid cell coordinate of an arbitrary integer image coordinate, with
Python `int` truncation toward zero on the quotient `x / cellSize`. -/
def gridCoord (m : ℕ) (x : ℤ) : ℤ :=
  if 0 ≤ x then gridCoordNat m x.toNat else -(gridCoordNat m (-x).toNat)

/-- Number of grid cells along an image dimension of length `L`:
Python `math.ceil(L / cellSize)` (ImageTriangulation.py:61-62).  For
`L ≥ 1` and `m ≥ 1` the quotient `L * sqrt 2 / m` is irrational, so its
ceiling is its floor plus one. -/
def gridDim (m L : ℕ) : ℕ :=
  if L = 0 then 0 else gridCoordNat m L + 1

/-- Python class `Grid` (ImageTriangulation.py:57-97): `minDist`, cell
counts along each axis, and one optional occupant per cell stored in a
flat row-major list. -/
structure Grid where
  minDist : ℕ
  width : ℕ
  height : ℕ
  cells : List (Option Point)
deriving DecidableEq, Repr

/-- `Grid.__init__` (ImageTriangulation.py:58-63). -/
def Grid.make (m W H : ℕ) : Grid :=
  ⟨m, gridDim m W, gridDim m H, List.replicate (gridDim m W * gridDim m H) none⟩

/-- `Grid.getGridIndex` (ImageTriangulation.py:73-76): row-major flat index;
when `gridSpace` is false the image coordinates are first converted to
grid-cell coordinates. -/
def Grid.getGridIndex (g : Grid) (x y : ℤ) (gridSpace : Bool) : ℤ :=
  if gridSpace then y * g.width + x
  else gridCoord g.minDist y * g.width + gridCoord g.minDist x

/-- `Grid.insert` (ImageTriangulation.py:79-82).  Out-of-range indices are
left unmodelled (the Python list assignment would raise / wrap); every
point the sampler inserts has nonnegative coordinates at most the image
dimension, whose flat index is always in range. -/
def Grid.insert (g : Grid) (p : Point) : Grid :=
  let idx := g.getGridIndex p.x p.y false
  if 0 ≤ idx ∧ idx < (g.cells.length : ℤ) then
    { g with cells := g.cells.set idx.toNat (some p) }
  else g

/-- `Grid.checkInNeighborhood` (ImageTriangulation.py:84-94).  Note the
Python loops `for y in range(gy-2, gy+2)` / `for x in range(gx-2, gx+2)`:
the upper bound of `range` is exclusive, so the window covers offsets
-2..+1 on each axis (not -2..+2).  The only bounds check is
`index in range(0, len(self.grid))` on the flat index, faithfully kept
here (so negative cell coordinates can wrap within the flat list, but a
hit still requires a true distance comparison). -/
def Grid.checkInNeighborhood (g : Grid) (p : Point) : Bool :=
  let gx := gridCoord g.minDist p.x
  let gy := gridCoord g.minDist p.y
  (List.range 4).any fun j =>
    (List.range 4).any fun i =>
      let idx := g.getGridIndex (gx - 2 + i) (gy - 2 + j) true
      if 0 ≤ idx ∧ idx < (g.cells.length : ℤ) then
        match g.cells.getD idx.toNat none with
        | some nb => decide (distSq p nb < (g.minDist : ℤ) * g.minDist)
        | none => false
      else false

/-- Static sampler configuration from `BlueNoiseGenerator.__init__`
(ImageTriangulation.py:100-110): target `pointCount`, candidates per step
`K` (`newPointsToGenerate`, default 50), image dimensions, and
`edgeThreshold` (set to the constructor's `minDist` argument).  The grid's
own `minDist` travels with the `Grid` value. -/
structure SamplerParams where
  pointCount : ℕ
  K : ℕ
  W : ℕ
  H : ℕ
  edgeThreshold : ℕ
deriving Repr

/-- The early boundary check used by both variants
(ImageTriangulation.py:177-178 and 214-215): the candidate must lie
strictly inside the image minus the `edgeThreshold` margin.  (The local
variable `edgeThreshold = 3` in `generate` at line 208 is dead: the
condition at lines 214-215 reads `self.edgeThreshold`.) -/
def inBounds (par : SamplerParams) (p : Point) : Bool :=
  decide ((par.edgeThreshold : ℤ) < p.x) && decide (p.x < (par.W : ℤ) - par.edgeThreshold) &&
  decide ((par.edgeThreshold : ℤ) < p.y) && decide (p.y < (par.H : ℤ) - par.edgeThreshold)

/-- Python `list.pop(i)`: the list with the element at position `i` removed. -/
def removeAt (l : List Point) (i : ℕ) : List Point :=
  l.take i ++ l.drop (i + 1)

/-- State of the uniform sampling loop of `BlueNoiseGenerator.generate`
(ImageTriangulation.py:201-224): the active list (`processingList`), the
accepted samples (`sampledList`, coordinates only in Python; we keep the
`Point`s, whose priorities are all 0 in this variant), and the grid.
`iter` counts outer iterations and only addresses the random tapes. -/
structure UState where
  processing : List Point
  sampled : List Point
  grid : Grid
  iter : ℕ
deriving Repr

/-- Seeding shared by both variants (ImageTriangulation.py:164-168 and
203-206): `startingPoint = Point(randint(0, imageWidth), randint(0,
imageHeight))` — `sx`, `sy` are the two `randint` results (note Python
`randint` bounds are inclusive) — added to `sampledList`,
`processingList`, and the grid before the loop. -/
def initUniform (g : Grid) (sx sy : ℕ) : UState :=
  let seed : Point := ⟨sx, sy, 0⟩
  ⟨[seed], [seed], g.insert seed, 0⟩

/-- Loop guard of both sampling loops (ImageTriangulation.py:172,210):
`len(processingList) > 0 and len(sampledList) < pointCount` — negated. -/
def uniformDone (par : SamplerParams) (s : UState) : Prop :=
  s.processing = [] ∨ par.pointCount ≤ s.sampled.length

instance (par : SamplerParams) (s : UState) : Decidable (uniformDone par s) := by
  unfold uniformDone; infer_instance

/-- The candidate batch of one outer iteration of `generate`
(ImageTriangulation.py:212-220): for each of the `K` candidates around the
popped parent, if it passes the edge check and the grid reports no
neighbor, it is immediately accepted — appended to `processingList` and
`sampledList` and inserted into the grid — and the batch continues with
the remaining candidates (several candidates of one batch may be
accepted).  `cand j` is the random offset pair of candidate `j`. -/
def uniformAccept (par : SamplerParams) (cand : ℕ → ℚ × ℚ) (parent : Point)
    (st : UState) (j : ℕ) : UState :=
  let np := generateRandomPointAround parent (cand j).1 (cand j).2
  if inBounds par np && !st.grid.checkInNeighborhood np then
    ⟨st.processing ++ [np], st.sampled ++ [np], st.grid.insert np, st.iter⟩
  else st

/-- The whole candidate batch: `for i in range(0, newPointsToGenerate)`
(ImageTriangulation.py:212). -/
def uniformBatch (par : SamplerParams) (cand : ℕ → ℚ × ℚ) (parent : Point)
    (s : UState) : UState :=
  (List.range par.K).foldl (uniformAccept par cand parent) s

/-- One outer iteration of `generate` (ImageTriangulation.py:210-220): pop
a uniformly random element of `processingList` (`pick i % len` ranges over
exactly the indices `randint(0, len-1)` produces) and run the candidate
batch.  When the loop guard fails the state is returned unchanged. -/
def uniformStep (par : SamplerParams) (pick : ℕ → ℕ) (cand : ℕ → ℕ → ℚ × ℚ)
    (s : UState) : UState :=
  if uniformDone par s then s
  else
    let idx := pick s.iter % s.processing.length
    let parent := s.processing.getD idx default
    let s1 : UState := ⟨removeAt s.processing idx, s.sampled, s.grid, s.iter⟩
    let s2 := uniformBatch par (cand s.iter) parent s1
    ⟨s2.processing, s2.sampled, s2.grid, s.iter + 1⟩

/-- State of the weighted sampling loop of
`BlueNoiseGenerator.generateWeighted` (ImageTriangulation.py:146-199):
like the uniform one plus the persistent candidate priority queue
(`pQueue`, created empty before the loop at line 170). -/
structure WState where
  processing : List Point
  sampled : List Point
  grid : Grid
  queue : List Point
  iter : ℕ
deriving Repr

/-- Seeding of the weighted variant (ImageTriangulation.py:164-170). -/
def initWeighted (g : Grid) (sx sy : ℕ) : WState :=
  let seed : Point := ⟨sx, sy, 0⟩
  ⟨[seed], [seed], g.insert seed, [], 0⟩

/-- Loop guard of `generateWeighted` (ImageTriangulation.py:172), negated. -/
def weightedDone (par : SamplerParams) (s : WState) : Prop :=
  s.processing = [] ∨ par.pointCount ≤ s.sampled.length

instance (par : SamplerParams) (s : WState) : Decidable (weightedDone par s) := by
  unfold weightedDone; infer_instance

/-- The candidate batch of one outer iteration of `generateWeighted`
(ImageTriangulation.py:174-180): each candidate passing the edge check
gets priority `-imageWeight[y][x]` (`wt` is the importance surface) and is
pushed onto the queue; none is accepted yet. -/
def weightedPush (par : SamplerParams) (wt : ℤ → ℤ → ℚ) (cand : ℕ → ℚ × ℚ)
    (parent : Point) (qs : List Point) (j : ℕ) : List Point :=
  let np := generateRandomPointAround parent (cand j).1 (cand j).2
  if inBounds par np then qs ++ [⟨np.x, np.y, -(wt np.y np.x)⟩] else qs

/-- The whole weighted candidate batch: `for i in range(0,
self.newPointsToGenerate)` (ImageTriangulation.py:174). -/
def weightedBatch (par : SamplerParams) (wt : ℤ → ℤ → ℚ) (cand : ℕ → ℚ × ℚ)
    (parent : Point) (q : List Point) : List Point :=
  (List.range par.K).foldl (weightedPush par wt cand parent) q

/-- `PriorityQueue.get`: removes and returns an entry of minimal priority
(`Point.__lt__` at ImageTriangulation.py:39-40 compares priorities).  The
heap's choice among equal-priority entries is unspecified; this model pops
the leftmost minimal entry. -/
def popMin : List Point → Option (Point × List Point)
  | [] => none
  | p :: rest =>
    match popMin rest with
    | none => some (p, [])
    | some (q, rest') =>
      if p.priority ≤ q.priority then some (p, rest) else some (q, p :: rest')

/-- The drain loop of one outer iteration of `generateWeighted`
(ImageTriangulation.py:182-189): repeatedly pop the minimum-priority
candidate; the first one with no grid neighbor is returned as accepted and
draining stops; candidates popped before it are collected as rejected;
the rest of the queue remains.  Returns
(rejected-in-pop-order, accepted?, remaining-queue).  `fuel` bounds the
recursion; `fuel ≥ queue length` makes it exact (each pop removes one
entry). -/
def drainAux (g : Grid) : ℕ → List Point → List Point × Option Point × List Point
  | 0, _ => ([], none, [])
  | fuel + 1, q =>
    match popMin q with
    | none => ([], none, [])
    | some (p, rest) =>
      if g.checkInNeighborhood p then
        let r := drainAux g fuel rest
        (p :: r.1, r.2.1, r.2.2)
      else ([], some p, rest)

/-- The drain loop with exact fuel. -/
def drain (g : Grid) (q : List Point) : List Point × Option Point × List Point :=
  drainAux g q.length q

/-- The parent point popped at the start of an outer iteration
(ImageTriangulation.py:173). -/
def pickedParent (pick : ℕ → ℕ) (processing : List Point) (i : ℕ) : Point :=
  processing.getD (pick i % processing.length) default

/-- The queue contents after the candidate batch of outer iteration
`s.iter` of `generateWeighted`. -/
def weightedQueueAfterBatch (par : SamplerParams) (wt : ℤ → ℤ → ℚ)
    (cand : ℕ → ℕ → ℚ × ℚ) (pick : ℕ → ℕ) (s : WState) : List Point :=
  weightedBatch par wt (cand s.iter) (pickedParent pick s.processing s.iter) s.queue

/-- One outer iteration of `generateWeighted`
(ImageTriangulation.py:172-189): pop a random parent, push the candidate
batch onto the persistent queue, then drain: if some candidate is accepted
it is appended to `processingList` and `sampledList` and inserted into the
grid, and the not-yet-popped candidates stay queued; otherwise the queue
has been fully drained.  Rejected pops are discarded either way. -/
def weightedStep (par : SamplerParams) (wt : ℤ → ℤ → ℚ) (pick : ℕ → ℕ)
    (cand : ℕ → ℕ → ℚ × ℚ) (s : WState) : WState :=
  if weightedDone par s then s
  else
    let idx := pick s.iter % s.processing.length
    let proc' := removeAt s.processing idx
    let q' := weightedQueueAfterBatch par wt cand pick s
    match drain s.grid q' with
    | (_, some p, rem) =>
      ⟨proc' ++ [p], s.sampled ++ [p], s.grid.insert p, rem, s.iter + 1⟩
    | (_, none, rem) => ⟨proc', s.sampled, s.grid, rem, s.iter + 1⟩

/-- State of the boundary walk of `generateBoundary`
(ImageTriangulation.py:112-144): the four edge cursors and the emitted
boundary points (appended to `sampledList` in the source; collected in
`out` here, coordinates as rationals since the cursors are floats). -/
structure BoundaryState where
  upperWidth : ℚ
  lowerWidth : ℚ
  leftHeight : ℚ
  rightHeight : ℚ
  out : List (ℚ × ℚ)
  iter : ℕ
deriving Repr

/-- Initial boundary-walk state (ImageTriangulation.py:114-117). -/
def boundaryInit : BoundaryState := ⟨0, 0, 0, 0, [], 0⟩

/-- Boundary loop guard (ImageTriangulation.py:121-122), negated. -/
def boundaryDone (W H : ℕ) (b : BoundaryState) : Prop :=
  ¬(b.lowerWidth < (W : ℚ) ∧ b.upperWidth < (W : ℚ) ∧
    b.leftHeight < (H : ℚ) ∧ b.rightHeight < (H : ℚ))

instance (W H : ℕ) (b : BoundaryState) : Decidable (boundaryDone W H b) := by
  unfold boundaryDone; infer_instance

/-- One round of the boundary walk (ImageTriangulation.py:121-142): emit
one point per edge at the current cursor positions, then advance each
cursor by its random delta.  `δ i = (upperDelta, lowerDelta, leftDelta,
rightDelta)` of round `i`; in the source each delta is
`random.uniform(minDist*s, 2*minDist*s)` where the scale `s` is the aspect
ratio (≥ 1) on the longer image dimension and 1 on the other, so every
delta is at least `minDist`. -/
def boundaryStep (W H : ℕ) (δ : ℕ → ℚ × ℚ × ℚ × ℚ) (b : BoundaryState) :
    BoundaryState :=
  if boundaryDone W H b then b
  else
    ⟨b.upperWidth + (δ b.iter).1, b.lowerWidth + (δ b.iter).2.1,
     b.leftHeight + (δ b.iter).2.2.1, b.rightHeight + (δ b.iter).2.2.2,
     b.out ++ [(b.upperWidth, 0), (b.lowerWidth, (H : ℚ) - 1),
               (0, b.leftHeight), ((W : ℚ) - 1, b.rightHeight)],
     b.iter + 1⟩

/-- The full returned `sampledList` of `generate`
(ImageTriangulation.py:201-224): the loop's accepted points (as coordinate
pairs, mirroring `list(point)`), then the boundary points of
`generateBoundary`, then the two fixed corners `[W-1, 0]` and `[W-1, H-1]`
(ImageTriangulation.py:143-144).  `fuelL`/`fuelB` bound the two loops;
large enough values leave the result stationary. -/
def returnedUniform (par : SamplerParams) (pick : ℕ → ℕ) (cand : ℕ → ℕ → ℚ × ℚ)
    (g : Grid) (sx sy : ℕ) (δ : ℕ → ℚ × ℚ × ℚ × ℚ) (fuelL fuelB : ℕ) :
    List (ℚ × ℚ) :=
  (((uniformStep par pick cand)^[fuelL] (initUniform g sx sy)).sampled.map
      fun p => ((p.x : ℚ), (p.y : ℚ))) ++
    ((boundaryStep par.W par.H δ)^[fuelB] boundaryInit).out ++
    [((par.W : ℚ) - 1, 0), ((par.W : ℚ) - 1, (par.H : ℚ) - 1)]

/-- Flat mean over a 2-D weight surface: `np.mean(self.imageWeight)`
(ImageTriangulation.py:161). -/
def npMean (w : List (List ℚ)) : ℚ :=
  (w.map List.sum).sum / ((w.map List.length).sum : ℚ)

/-- The normalization `self.imageWeight /= np.mean(self.imageWeight)`
(ImageTriangulation.py:161).  The division is unconditional in the source;
when the mean is 0 numpy's elementwise `0.0/0.0` produces NaN (invalid
operation) for every entry, modelled here as `none`: no defined surface
results. -/
def normalizeImageWeight (w : List (List ℚ)) : Option (List (List ℚ)) :=
  if npMean w = 0 then none
  else some (w.map (List.map (· / npMean w)))

/-- All pixel coordinates `(x, y)` of a `W × H` image in the row-major
order of `np.meshgrid(arange(W), arange(H))` raveled
(ImageTriangulation.py:228-229): `y` advances in the outer loop. -/
def pixelCoords (W H : ℕ) : List (ℕ × ℕ) :=
  (List.range (H * W)).map fun k => (k % W, k / W)

/-- The pixels of the image whose point-location result
(`triangulation.find_simplex`, ImageTriangulation.py:231) equals `t`;
pixels outside the convex hull get `fs x y = -1`.  This is the group with
key `t` of the pandas `groupby("triangle")` (ImageTriangulation.py:233-242). -/
def pixelsOfTriangle (W H : ℕ) (fs : ℕ → ℕ → ℤ) (t : ℤ) : List (ℕ × ℕ) :=
  (pixelCoords W H).filter fun p => decide (fs p.1 p.2 = t)

/-- `np.mean` of a sample list. -/
def meanQ (l : List ℚ) : ℚ :=
  l.sum / (l.length : ℚ)

/-- `np.median` of a sample list: middle element of the sorted list for
odd length, average of the two middle elements for even length. -/
def medianQ (l : List ℚ) : ℚ :=
  let s := l.insertionSort (· ≤ ·)
  if l.length % 2 = 1 then s.getD (l.length / 2) 0
  else (s.getD (l.length / 2 - 1) 0 + s.getD (l.length / 2) 0) / 2

/-- `calculateTriColors` (ImageTriangulation.py:226-244).  `img y x` is the
RGB color of pixel `(x, y)` (the dataframe's r/g/b columns come from
`image.reshape(-1, 3)`, aligned row-major with the raveled pixel grid);
`fs` is the point-location oracle; `count` is `triangulation.simplices.shape[0]`;
`agg` is the caller-selected per-channel aggregate (`np.mean` or
`np.median`).  `groupby("triangle").aggregate(agg).reindex(range(count),
fill_value=0)` keeps, for each simplex index `t < count`, the aggregate of
its group when nonempty and 0 otherwise, and drops the `-1`
(outside-the-hull) group; the result is divided by 256. -/
def calculateTriColors (W H : ℕ) (img : ℕ → ℕ → ℚ × ℚ × ℚ) (fs : ℕ → ℕ → ℤ)
    (count : ℕ) (agg : List ℚ → ℚ) : List (ℚ × ℚ × ℚ) :=
  (List.range count).map fun (t : ℕ) =>
    let px := pixelsOfTriangle W H fs (t : ℤ)
    if px = [] then (0, 0, 0)
    else
      (agg (px.map fun p => (img p.2 p.1).1) / 256,
       agg (px.map fun p => (img p.2 p.1).2.1) / 256,
       agg (px.map fun p => (img p.2 p.1).2.2) / 256)

/-! Concrete inputs used by counterexamples and witnesses.  The sampler
run uses minDist 10 on a 100 x 100 image, so `cellSize = 10/sqrt 2
≈ 7.071` and the grid is 15 x 15.  The two candidate offsets are
integer-valued points of the annulus `10^2 ≤ dx^2+dy^2 < 20^2`
(norms `sqrt 260` and exactly `10`). -/

/-- Concrete sampler parameters: target 3 points, 2 candidates per step,
100 x 100 image, edge threshold = minDist = 10. -/
def cPar : SamplerParams := ⟨3, 2, 100, 100, 10⟩

/-- Concrete grid (minDist 10 over a 100 x 100 image: 15 x 15 cells). -/
def cGrid : Grid := Grid.make 10 100 100

/-- Concrete index tape: the random pop always picks position 0 (every
pop in the run below is from a singleton list, so this is the only
possible `randint` outcome anyway). -/
def cPick : ℕ → ℕ := fun _ => 0

/-- Concrete candidate-offset tape: in outer iteration 0 the two
candidates are at offsets `(14, -8)` and `(6, -8)` from the parent. -/
def cCand : ℕ → ℕ → ℚ × ℚ :=
  fun _ j => if j = 0 then ((14 : ℚ), (-8 : ℚ)) else ((6 : ℚ), (-8 : ℚ))

/-- Concrete boundary-delta tape: every delta is 15 (a legal
`uniform(10, 20)` outcome for the square 100 x 100 image). -/
def cDelta : ℕ → ℚ × ℚ × ℚ × ℚ := fun _ => (15, 15, 15, 15)

/-- Concrete candidate-offset tape whose two candidates (offsets
`(14, 0)` and `(0, 14)`, both of annulus norm 14) are both accepted in one
batch, driving the accepted count past the target. -/
def cExceed : ℕ → ℕ → ℚ × ℚ :=
  fun _ j => if j = 0 then ((14 : ℚ), (0 : ℚ)) else ((0 : ℚ), (14 : ℚ))

/-! ## Helper lemmas -/

/-- `gridCoordNat` computes `⌊sqrt (2*x^2)⌋ / m`, i.e. the floor of
`x * sqrt 2 / m`, as claimed in its documentation. -/
theorem gridCoordNat_eq_sqrt (m x : ℕ) (hm : 1 ≤ m) :
    gridCoordNat m x = Nat.sqrt (2 * x ^ 2) / m := by
  have hm0 : 0 < m := by omega
  have hc : Nat.sqrt (2 * x ^ 2) / m ≤ 2 * x := by
    have h1 : Nat.sqrt (2 * x ^ 2) ≤ 2 * x := by
      calc Nat.sqrt (2 * x ^ 2) ≤ Nat.sqrt ((2 * x) ^ 2) := by
            apply Nat.sqrt_le_sqrt; nlinarith
        _ = 2 * x := Nat.sqrt_eq' (2 * x)
    exact le_trans (Nat.div_le_self _ _) h1
  have hiff : ∀ k : ℕ, (((k + 1) * m) ^ 2 ≤ 2 * x ^ 2 ↔ k < Nat.sqrt (2 * x ^ 2) / m) := by
    intro k
    constructor
    · intro h
      have h1 : (k + 1) * m ≤ Nat.sqrt (2 * x ^ 2) := Nat.le_sqrt'.mpr h
      have h2 := (Nat.le_div_iff_mul_le hm0).mpr h1
      omega
    · intro h
      have h1 : (k + 1) * m ≤ Nat.sqrt (2 * x ^ 2) :=
        (Nat.le_div_iff_mul_le hm0).mp (by omega)
      exact Nat.le_sqrt'.mp h1
  unfold gridCoordNat
  have hcnt :
      (List.range (2 * x + 1)).countP (fun k => decide (((k + 1) * m) ^ 2 ≤ 2 * x ^ 2)) =
        (List.range (2 * x + 1)).countP (fun k => decide (k < Nat.sqrt (2 * x ^ 2) / m)) :=
    List.countP_congr fun k _ => by
      simp only [decide_eq_true_eq]
      exact hiff k
  rw [hcnt]
  generalize hcx : Nat.sqrt (2 * x ^ 2) / m = c at hc ⊢
  have key : ∀ N : ℕ, (List.range N).countP (fun k => decide (k < c)) = min c N := by
    intro N
    induction N with
    | zero => simp
    | succ N ih =>
      rw [List.range_succ, List.countP_append, ih]
      by_cases h : N < c
      · simp [h]; omega
      · simp [h]; omega
  rw [key]; omega

/-- Population of `removeAt` (Python `list.pop(i)`): one element fewer. -/
theorem removeAt_length (l : List Point) (i : ℕ) (h : i < l.length) :
    (removeAt l i).length = l.length - 1 := by
  unfold removeAt
  rw [List.length_append, List.length_take, List.length_drop]
  omega

/-- Folding the per-candidate acceptance over any index list grows
`sampledList` and `processingList` by one common amount, at most the
number of candidates, and leaves the tape cursor unchanged. -/
theorem uniformAccept_foldl_counts (par : SamplerParams) (cand : ℕ → ℚ × ℚ)
    (parent : Point) (l : List ℕ) :
    ∀ s : UState, ∃ a, a ≤ l.length ∧
      (l.foldl (uniformAccept par cand parent) s).sampled.length = s.sampled.length + a ∧
      (l.foldl (uniformAccept par cand parent) s).processing.length =
        s.processing.length + a ∧
      (l.foldl (uniformAccept par cand parent) s).iter = s.iter := by
  induction l with
  | nil => intro s; exact ⟨0, by simp⟩
  | cons j t ih =>
    intro s
    rw [List.foldl_cons]
    by_cases hc :
        (inBounds par (generateRandomPointAround parent (cand j).1 (cand j).2) &&
          !s.grid.checkInNeighborhood
            (generateRandomPointAround parent (cand j).1 (cand j).2)) = true
    · have hacc : uniformAccept par cand parent s j =
          ⟨s.processing ++ [generateRandomPointAround parent (cand j).1 (cand j).2],
           s.sampled ++ [generateRandomPointAround parent (cand j).1 (cand j).2],
           s.grid.insert (generateRandomPointAround parent (cand j).1 (cand j).2),
           s.iter⟩ := by
        simp [uniformAccept, hc]
      obtain ⟨a, ha, h1, h2, h3⟩ :=
        ih ⟨s.processing ++ [generateRandomPointAround parent (cand j).1 (cand j).2],
            s.sampled ++ [generateRandomPointAround parent (cand j).1 (cand j).2],
            s.grid.insert (generateRandomPointAround parent (cand j).1 (cand j).2),
            s.iter⟩
      rw [hacc]
      refine ⟨a + 1, by simp; omega, ?_, ?_, ?_⟩
      · rw [h1]; simp; omega
      · rw [h2]; simp; omega
      · rw [h3]
    · have hacc : uniformAccept par cand parent s j = s := by
        simp only [uniformAccept, hc]
        simp
      obtain ⟨a, ha, h1, h2, h3⟩ := ih s
      rw [hacc]
      exact ⟨a, by simp; omega, h1, h2, h3⟩

/-- Termination measure of the uniform sampling loop. -/
def uMeasure (par : SamplerParams) (s : UState) : ℕ :=
  s.processing.length + (par.K + 1) * (par.pointCount - s.sampled.length)

/-- Each guarded iteration of the uniform loop strictly decreases the
measure: a batch with `a` acceptances pays `a*(K+1)` on the sampled side
against `a - 1` on the processing side. -/
theorem uniformStep_measure_lt (par : SamplerParams) (pick : ℕ → ℕ)
    (cand : ℕ → ℕ → ℚ × ℚ) (s : UState) (h : ¬ uniformDone par s) :
    uMeasure par (uniformStep par pick cand s) < uMeasure par s := by
  have hproc : s.processing ≠ [] := fun hp => h (Or.inl hp)
  have hlen : 0 < s.processing.length := List.length_pos.mpr hproc
  have hcount : s.sampled.length < par.pointCount := by
    rcases Nat.lt_or_ge s.sampled.length par.pointCount with h1 | h1
    · exact h1
    · exact absurd (Or.inr h1) h
  have hidx : pick s.iter % s.processing.length < s.processing.length :=
    Nat.mod_lt _ hlen
  rw [uniformStep, if_neg h]
  obtain ⟨a, ha, h1, h2, _⟩ :=
    uniformAccept_foldl_counts par (cand s.iter)
      (s.processing.getD (pick s.iter % s.processing.length) default)
      (List.range par.K)
      ⟨removeAt s.processing (pick s.iter % s.processing.length), s.sampled, s.grid, s.iter⟩
  simp only [List.length_range] at ha
  unfold uMeasure uniformBatch
  simp only [h1, h2, removeAt_length s.processing _ hidx]
  rcases Nat.eq_zero_or_pos a with rfl | hapos
  · have : par.pointCount - (s.sampled.length + 0) = par.pointCount - s.sampled.length := by
      omega
    rw [this]
    omega
  · have hsub : par.pointCount - (s.sampled.length + a) ≤
        par.pointCount - s.sampled.length - 1 := by omega
    have hmul : (par.K + 1) * (par.pointCount - (s.sampled.length + a)) ≤
        (par.K + 1) * (par.pointCount - s.sampled.length - 1) :=
      Nat.mul_le_mul_left _ hsub
    have hexp : (par.K + 1) * (par.pointCount - s.sampled.length) =
        (par.K + 1) * (par.pointCount - s.sampled.length - 1) + (par.K + 1) := by
      have hd : par.pointCount - s.sampled.length =
          (par.pointCount - s.sampled.length - 1) + 1 := by omega
      conv_lhs => rw [hd]
      rw [Nat.mul_add, Nat.mul_one]
    generalize (par.K + 1) * (par.pointCount - (s.sampled.length + a)) = u at hmul ⊢
    generalize (par.K + 1) * (par.pointCount - s.sampled.length - 1) = v at hmul hexp ⊢
    omega

/-- The uniform sampling loop reaches a state where its guard fails,
from any state: strong induction on the measure. -/
theorem uniform_reaches_done (par : SamplerParams) (pick : ℕ → ℕ)
    (cand : ℕ → ℕ → ℚ × ℚ) :
    ∀ s : UState, ∃ n, uniformDone par ((uniformStep par pick cand)^[n] s) := by
  have key : ∀ (m : ℕ) (s : UState), uMeasure par s ≤ m →
      ∃ n, uniformDone par ((uniformStep par pick cand)^[n] s) := by
    intro m
    induction m with
    | zero =>
      intro s hs
      by_cases hd : uniformDone par s
      · exact ⟨0, hd⟩
      · have := uniformStep_measure_lt par pick cand s hd
        omega
    | succ m ih =>
      intro s hs
      by_cases hd : uniformDone par s
      · exact ⟨0, hd⟩
      · have hlt := uniformStep_measure_lt par pick cand s hd
        obtain ⟨n, hn⟩ := ih (uniformStep par pick cand s) (by omega)
        exact ⟨n + 1, by rwa [Function.iterate_succ_apply]⟩
  exact fun s => key (uMeasure par s) s le_rfl

/-- Effect of one guarded weighted iteration: either exactly one point is
accepted (appended to `sampledList`, processing population unchanged: one
popped, one pushed) or none is (processing shrinks by one). -/
theorem weightedStep_cases (par : SamplerParams) (wt : ℤ → ℤ → ℚ) (pick : ℕ → ℕ)
    (cand : ℕ → ℕ → ℚ × ℚ) (s : WState) (h : ¬ weightedDone par s) :
    (∃ p, (weightedStep par wt pick cand s).sampled = s.sampled ++ [p] ∧
        (weightedStep par wt pick cand s).processing.length = s.processing.length) ∨
      ((weightedStep par wt pick cand s).sampled = s.sampled ∧
        (weightedStep par wt pick cand s).processing.length + 1 = s.processing.length) := by
  have hproc : s.processing ≠ [] := fun hp => h (Or.inl hp)
  have hlen : 0 < s.processing.length := List.length_pos.mpr hproc
  have hidx : pick s.iter % s.processing.length < s.processing.length :=
    Nat.mod_lt _ hlen
  rw [weightedStep, if_neg h]
  rcases hd : drain s.grid (weightedQueueAfterBatch par wt cand pick s) with ⟨rej, acc, rem⟩
  cases acc with
  | some p =>
    left
    refine ⟨p, by simp [hd], ?_⟩
    simp only [hd, List.length_append, List.length_cons, List.length_nil,
      removeAt_length s.processing _ hidx]
    omega
  | none =>
    right
    exact ⟨by simp [hd], by simp [hd, removeAt_length s.processing _ hidx]; omega⟩

/-- Termination measure of the weighted sampling loop. -/
def wMeasure (par : SamplerParams) (s : WState) : ℕ :=
  s.processing.length + 2 * (par.pointCount - s.sampled.length)

/-- Each guarded iteration of the weighted loop strictly decreases the
measure. -/
theorem weightedStep_measure_lt (par : SamplerParams) (wt : ℤ → ℤ → ℚ)
    (pick : ℕ → ℕ) (cand : ℕ → ℕ → ℚ × ℚ) (s : WState) (h : ¬ weightedDone par s) :
    wMeasure par (weightedStep par wt pick cand s) < wMeasure par s := by
  have hcount : s.sampled.length < par.pointCount := by
    rcases Nat.lt_or_ge s.sampled.length par.pointCount with h1 | h1
    · exact h1
    · exact absurd (Or.inr h1) h
  rcases weightedStep_cases par wt pick cand s h with ⟨p, h1, h2⟩ | ⟨h1, h2⟩
  · unfold wMeasure
    rw [h1, h2, List.length_append]
    simp only [List.length_cons, List.length_nil]
    omega
  · unfold wMeasure
    rw [h1]
    omega

/-- The weighted sampling loop reaches a state where its guard fails. -/
theorem weighted_reaches_done (par : SamplerParams) (wt : ℤ → ℤ → ℚ)
    (pick : ℕ → ℕ) (cand : ℕ → ℕ → ℚ × ℚ) :
    ∀ s : WState, ∃ n, weightedDone par ((weightedStep par wt pick cand)^[n] s) := by
  have key : ∀ (m : ℕ) (s : WState), wMeasure par s ≤ m →
      ∃ n, weightedDone par ((weightedStep par wt pick cand)^[n] s) := by
    intro m
    induction m with
    | zero =>
      intro s hs
      by_cases hd : weightedDone par s
      · exact ⟨0, hd⟩
      · have := weightedStep_measure_lt par wt pick cand s hd
        omega
    | succ m ih =>
      intro s hs
      by_cases hd : weightedDone par s
      · exact ⟨0, hd⟩
      · have hlt := weightedStep_measure_lt par wt pick cand s hd
        obtain ⟨n, hn⟩ := ih (weightedStep par wt pick cand s) (by omega)
        exact ⟨n + 1, by rwa [Function.iterate_succ_apply]⟩
  exact fun s => key (wMeasure par s) s le_rfl

/-- The boundary walk reaches its exit within `W` rounds: every round
advances the top cursor by at least `minDist ≥ 1` (the `uniform` deltas
are bounded below by `minDist` times a scale that is at least 1). -/
theorem boundary_reaches_done (W H m : ℕ) (δ : ℕ → ℚ × ℚ × ℚ × ℚ)
    (hm : 1 ≤ m) (hδ : ∀ i, (m : ℚ) ≤ (δ i).1) :
    ∃ n, boundaryDone W H ((boundaryStep W H δ)^[n] boundaryInit) := by
  have key : ∀ n : ℕ, boundaryDone W H ((boundaryStep W H δ)^[n] boundaryInit) ∨
      (n : ℚ) * m ≤ ((boundaryStep W H δ)^[n] boundaryInit).upperWidth := by
    intro n
    induction n with
    | zero => right; simp [boundaryInit]
    | succ n ih =>
      rw [Function.iterate_succ_apply']
      by_cases hd : boundaryDone W H ((boundaryStep W H δ)^[n] boundaryInit)
      · left
        rwa [boundaryStep, if_pos hd]
      · rcases ih with h | h
        · exact absurd h hd
        · right
          rw [boundaryStep, if_neg hd]
          have := hδ ((boundaryStep W H δ)^[n] boundaryInit).iter
          push_cast
          nlinarith
  refine ⟨W, ?_⟩
  rcases key W with h | h
  · exact h
  · intro hcon
    have hW : ((W : ℚ)) ≤ (W : ℚ) * m := by
      nlinarith [show (1 : ℚ) ≤ (m : ℚ) by exact_mod_cast hm, show (0 : ℚ) ≤ (W : ℚ) by positivity]
    exact absurd hcon.2.1 (by linarith)

/-- Bound on the uniform sampler's output: at most `K` acceptances can
happen after the guard last saw fewer than `pointCount` samples. -/
theorem uniform_sampled_length_le (par : SamplerParams) (pick : ℕ → ℕ)
    (cand : ℕ → ℕ → ℚ × ℚ) (g : Grid) (sx sy : ℕ) :
    ∀ n : ℕ, ((uniformStep par pick cand)^[n] (initUniform g sx sy)).sampled.length ≤
      max 1 (par.pointCount + par.K - 1) := by
  intro n
  induction n with
  | zero => simp [initUniform]
  | succ n ih =>
    rw [Function.iterate_succ_apply']
    set s := (uniformStep par pick cand)^[n] (initUniform g sx sy) with hs
    by_cases hd : uniformDone par s
    · rwa [uniformStep, if_pos hd]
    · have hcount : s.sampled.length < par.pointCount := by
        rcases Nat.lt_or_ge s.sampled.length par.pointCount with h1 | h1
        · exact h1
        · exact absurd (Or.inr h1) hd
      rw [uniformStep, if_neg hd]
      obtain ⟨a, ha, h1, _, _⟩ :=
        uniformAccept_foldl_counts par (cand s.iter)
          (s.processing.getD (pick s.iter % s.processing.length) default)
          (List.range par.K)
          ⟨removeAt s.processing (pick s.iter % s.processing.length), s.sampled, s.grid, s.iter⟩
      simp only [List.length_range] at ha
      unfold uniformBatch
      simp only [h1]
      omega

/-- Bound on the weighted sampler's output: at most one acceptance per
guarded iteration. -/
theorem weighted_sampled_length_le (par : SamplerParams) (wt : ℤ → ℤ → ℚ)
    (pick : ℕ → ℕ) (cand : ℕ → ℕ → ℚ × ℚ) (g : Grid) (sx sy : ℕ) :
    ∀ n : ℕ, ((weightedStep par wt pick cand)^[n] (initWeighted g sx sy)).sampled.length ≤
      max 1 par.pointCount := by
  intro n
  induction n with
  | zero => simp [initWeighted]
  | succ n ih =>
    rw [Function.iterate_succ_apply']
    set s := (weightedStep par wt pick cand)^[n] (initWeighted g sx sy) with hs
    by_cases hd : weightedDone par s
    · rwa [weightedStep, if_pos hd]
    · have hcount : s.sampled.length < par.pointCount := by
        rcases Nat.lt_or_ge s.sampled.length par.pointCount with h1 | h1
        · exact h1
        · exact absurd (Or.inr h1) hd
      rcases weightedStep_cases par wt pick cand s hd with ⟨p, h1, _⟩ | ⟨h1, _⟩ <;>
        rw [h1] <;> simp [List.length_append] <;> omega

/-- `popMin` returns `none` exactly on the empty queue. -/
theorem popMin_eq_none_iff (q : List Point) : popMin q = none ↔ q = [] := by
  cases q with
  | nil => simp [popMin]
  | cons p rest =>
    simp only [popMin]
    rcases h : popMin rest with _ | ⟨r, rest'⟩
    · simp
    · by_cases hle : p.priority ≤ r.priority <;> simp [hle]

/-- `popMin` removes exactly one occurrence of the popped element. -/
theorem popMin_multiset (q : List Point) (p : Point) (rest : List Point)
    (h : popMin q = some (p, rest)) :
    (q : Multiset Point) = p ::ₘ (rest : Multiset Point) := by
  induction q generalizing p rest with
  | nil => simp [popMin] at h
  | cons a l ih =>
    simp only [popMin] at h
    rcases hl : popMin l with _ | ⟨r, rest'⟩
    · rw [hl] at h
      simp only [Option.some.injEq, Prod.mk.injEq] at h
      obtain ⟨rfl, rfl⟩ := h
      have : l = [] := (popMin_eq_none_iff l).mp hl
      subst this
      rfl
    · rw [hl] at h
      dsimp only at h
      by_cases hle : a.priority ≤ r.priority
      · rw [if_pos hle] at h
        simp only [Option.some.injEq, Prod.mk.injEq] at h
        obtain ⟨rfl, rfl⟩ := h
        rfl
      · rw [if_neg hle] at h
        simp only [Option.some.injEq, Prod.mk.injEq] at h
        obtain ⟨rfl, rfl⟩ := h
        have hthis := ih r rest' hl
        calc ((a :: l : List Point) : Multiset Point)
            = a ::ₘ (l : Multiset Point) := rfl
          _ = a ::ₘ (r ::ₘ (rest' : Multiset Point)) := by rw [hthis]
          _ = r ::ₘ (a ::ₘ (rest' : Multiset Point)) := Multiset.cons_swap a r _
          _ = r ::ₘ ((a :: rest' : List Point) : Multiset Point) := rfl

/-- The element `popMin` pops has minimal priority among the remainder. -/
theorem popMin_min (q : List Point) (p : Point) (rest : List Point)
    (h : popMin q = some (p, rest)) :
    ∀ x ∈ rest, p.priority ≤ x.priority := by
  induction q generalizing p rest with
  | nil => simp [popMin] at h
  | cons a l ih =>
    simp only [popMin] at h
    rcases hl : popMin l with _ | ⟨r, rest'⟩
    · rw [hl] at h
      simp only [Option.some.injEq, Prod.mk.injEq] at h
      obtain ⟨rfl, rfl⟩ := h
      intro x hx
      simp at hx
    · rw [hl] at h
      dsimp only at h
      have hmem : ∀ x ∈ l, r.priority ≤ x.priority := by
        intro x hx
        have hms := popMin_multiset l r rest' hl
        have : x ∈ (l : Multiset Point) := by exact_mod_cast hx
        rw [hms, Multiset.mem_cons] at this
        rcases this with rfl | hx'
        · exact le_rfl
        · exact ih r rest' hl x (by exact_mod_cast hx')
      by_cases hle : a.priority ≤ r.priority
      · rw [if_pos hle] at h
        simp only [Option.some.injEq, Prod.mk.injEq] at h
        obtain ⟨rfl, rfl⟩ := h
        exact fun x hx => le_trans hle (hmem x hx)
      · rw [if_neg hle] at h
        simp only [Option.some.injEq, Prod.mk.injEq] at h
        obtain ⟨rfl, rfl⟩ := h
        intro x hx
        rcases List.mem_cons.mp hx with rfl | hx'
        · exact le_of_lt (lt_of_not_le hle)
        · have hms := popMin_multiset l r rest' hl
          have hxl : x ∈ l := by
            have hxm : x ∈ ((l : List Point) : Multiset Point) := by
              rw [hms]
              exact Multiset.mem_cons_of_mem (by exact_mod_cast hx')
            exact_mod_cast hxm
          exact hmem x hxl

/-- `popMin` shrinks the queue by one. -/
theorem popMin_length (q : List Point) (p : Point) (rest : List Point)
    (h : popMin q = some (p, rest)) : q.length = rest.length + 1 := by
  have := congrArg Multiset.card (popMin_multiset q p rest h)
  simpa using this

/-- Full specification of the drain loop (with sufficient fuel): the
queue splits, as a multiset, into the popped-and-rejected entries, the
accepted entry, and the remaining queue; every rejected entry failed the
grid test and the accepted one passed it; and the popped sequence
(rejected entries followed by the accepted one) is ordered by
non-decreasing stored priority. -/
theorem drainAux_spec (g : Grid) :
    ∀ (fuel : ℕ) (q : List Point), q.length ≤ fuel →
      ((q : Multiset Point) =
        ↑(drainAux g fuel q).1 + ↑(drainAux g fuel q).2.1.toList + ↑(drainAux g fuel q).2.2) ∧
      (∀ p ∈ (drainAux g fuel q).1, g.checkInNeighborhood p = true) ∧
      (∀ p, (drainAux g fuel q).2.1 = some p → g.checkInNeighborhood p = false) ∧
      List.Pairwise (fun a b => a.priority ≤ b.priority)
        ((drainAux g fuel q).1 ++ (drainAux g fuel q).2.1.toList) := by
  intro fuel
  induction fuel with
  | zero =>
    intro q hq
    have : q = [] := List.eq_nil_of_length_eq_zero (by omega)
    subst this
    simp [drainAux]
  | succ fuel ih =>
    intro q hq
    rcases hpop : popMin q with _ | ⟨p, rest⟩
    · have : q = [] := (popMin_eq_none_iff q).mp hpop
      subst this
      simp [drainAux, popMin]
    · have hlen := popMin_length q p rest hpop
      have hrest : rest.length ≤ fuel := by omega
      have hms := popMin_multiset q p rest hpop
      have hmin := popMin_min q p rest hpop
      by_cases hchk : g.checkInNeighborhood p
      · have hstep : drainAux g (fuel + 1) q =
            ((p :: (drainAux g fuel rest).1, (drainAux g fuel rest).2.1,
              (drainAux g fuel rest).2.2) :
              List Point × Option Point × List Point) := by
          rw [drainAux, hpop]
          dsimp only
          rw [if_pos hchk]
        obtain ⟨ih1, ih2, ih3, ih4⟩ := ih rest hrest
        rw [hstep]
        have hmemrest : ∀ x : Point,
            x ∈ (drainAux g fuel rest).1 ++ (drainAux g fuel rest).2.1.toList → x ∈ rest := by
          intro x hx
          have : x ∈ ((rest : List Point) : Multiset Point) := by
            rw [ih1]
            rcases List.mem_append.mp hx with hx' | hx'
            · exact Multiset.mem_add.mpr (Or.inl (Multiset.mem_add.mpr (Or.inl (by
                exact_mod_cast hx'))))
            · exact Multiset.mem_add.mpr (Or.inl (Multiset.mem_add.mpr (Or.inr (by
                exact_mod_cast hx'))))
          exact_mod_cast this
        refine ⟨?_, ?_, ih3, ?_⟩
        · rw [hms, ih1]
          simp only [Multiset.cons_coe]
          rfl
        · intro x hx
          rcases List.mem_cons.mp hx with rfl | hx'
          · exact hchk
          · exact ih2 x hx'
        · rw [List.cons_append]
          refine List.pairwise_cons.mpr ⟨?_, ih4⟩
          exact fun x hx => hmin x (hmemrest x hx)
      · have hstep : drainAux g (fuel + 1) q =
            (([], some p, rest) : List Point × Option Point × List Point) := by
          rw [drainAux, hpop]
          dsimp only
          rw [if_neg hchk]
        rw [hstep]
        refine ⟨?_, by simp, ?_, ?_⟩
        · rw [hms]
          simp
        · intro x hx
          simp only [Option.some.injEq] at hx
          subst hx
          simpa using hchk
        · simp

/-- Truncation toward zero never grows the magnitude. -/
theorem truncQ_abs_le (q : ℚ) : |(truncQ q : ℚ)| ≤ |q| := by
  unfold truncQ
  by_cases h : 0 ≤ q
  · rw [if_pos h]
    have h0 : (0 : ℤ) ≤ ⌊q⌋ := Int.floor_nonneg.mpr h
    rw [abs_of_nonneg h, abs_of_nonneg (by exact_mod_cast h0 : (0 : ℚ) ≤ (⌊q⌋ : ℚ))]
    exact Int.floor_le q
  · rw [if_neg h]
    push_neg at h
    have h0 : (0 : ℤ) ≤ ⌊-q⌋ := Int.floor_nonneg.mpr (by linarith)
    rw [abs_of_neg h]
    push_cast
    rw [abs_of_nonpos (by exact_mod_cast Int.neg_nonpos_of_nonneg h0 :
      (-(⌊-q⌋ : ℚ) : ℚ) ≤ 0)]
    simp only [neg_neg]
    exact Int.floor_le (-q)

/-- Truncation toward zero loses less than one in magnitude. -/
theorem abs_lt_truncQ_abs_add_one (q : ℚ) : |q| < |(truncQ q : ℚ)| + 1 := by
  unfold truncQ
  by_cases h : 0 ≤ q
  · rw [if_pos h]
    have h0 : (0 : ℤ) ≤ ⌊q⌋ := Int.floor_nonneg.mpr h
    rw [abs_of_nonneg h, abs_of_nonneg (by exact_mod_cast h0 : (0 : ℚ) ≤ (⌊q⌋ : ℚ))]
    exact Int.lt_floor_add_one q
  · rw [if_neg h]
    push_neg at h
    have h0 : (0 : ℤ) ≤ ⌊-q⌋ := Int.floor_nonneg.mpr (by linarith)
    rw [abs_of_neg h]
    push_cast
    rw [abs_of_nonpos (by exact_mod_cast Int.neg_nonpos_of_nonneg h0 :
      (-(⌊-q⌋ : ℚ) : ℚ) ≤ 0)]
    simp only [neg_neg]
    exact Int.lt_floor_add_one (-q)

/-- The three `calculateTriColors` output channels when one simplex
contains every pixel of the image. -/
theorem calcTriColors_single_simplex (W H : ℕ) (img : ℕ → ℕ → ℚ × ℚ × ℚ)
    (agg : List ℚ → ℚ) (hW : 1 ≤ W) (hH : 1 ≤ H) :
    calculateTriColors W H img (fun _ _ => 0) 1 agg =
      [(agg ((pixelCoords W H).map fun p => (img p.2 p.1).1) / 256,
        agg ((pixelCoords W H).map fun p => (img p.2 p.1).2.1) / 256,
        agg ((pixelCoords W H).map fun p => (img p.2 p.1).2.2) / 256)] := by
  have hall : pixelsOfTriangle W H (fun _ _ => 0) 0 = pixelCoords W H := by
    unfold pixelsOfTriangle
    apply List.filter_eq_self.mpr
    intro a _
    simp
  have hne : pixelCoords W H ≠ [] := by
    intro hcon
    have hlen : (pixelCoords W H).length = H * W := by simp [pixelCoords]
    rw [hcon] at hlen
    simp only [List.length_nil] at hlen
    rcases Nat.mul_eq_zero.mp hlen.symm with h | h <;> omega
  simp only [calculateTriColors, List.range_succ, List.range_zero, List.nil_append,
    List.map_cons, List.map_nil, Nat.cast_zero]
  rw [hall, if_neg hne]

/-! ## Claim theorems -/

/-- C2: the claim says `checkInNeighborhood q` is true iff some inserted
point lies within `minDist` of `q`, the search window being symmetric
(offsets -2..+2 on both axes).  The code's window is `range(c-2, c+2)`,
i.e. offsets -2..+1: with minDist 10 (cell size `10/sqrt 2 ≈ 7.07`) and a
100 x 100 image, the point `(64, 30)` sits in cell `(9, 4)`, two cell
columns right of the query `(56, 30)` in cell `(7, 4)`; the window of the
query stops at column +1, so the query reports `false` even though the
distance is `8 < 10`, refuting the "if" direction of the claimed
equivalence. -/
theorem C2_checkInNeighborhood_misses_close_point :
    (cGrid.insert ⟨64, 30, 0⟩).checkInNeighborhood ⟨56, 30, 0⟩ = false ∧
      distSq ⟨56, 30, 0⟩ ⟨64, 30, 0⟩ < (cGrid.minDist : ℤ) * cGrid.minDist ∧
      1 ≤ cGrid.minDist := by
  refine ⟨by decide, by decide, by decide⟩

/-- C1: the claim says every completed run keeps distinct non-boundary
points of `sampledList` at least `minDist` apart (up to truncation
tolerance).  The concrete uniform run below (minDist 10, 100 x 100 image,
target 3, 2 candidates per step, seed `(50, 38)`, candidate offsets
`(14, -8)` then `(6, -8)`, both inside the annulus `10 ≤ ‖·‖ < 20`)
completes after one outer iteration and accepts both `(64, 30)` and
`(56, 30)`: their distance is `8`, well below `minDist - sqrt 2 ≈ 8.59`,
because the asymmetric neighbor window misses the occupied cell two
columns to the right.  The returned list holds the two offending points at
positions 1 and 2, before the boundary points. -/
theorem C1_run_breaks_minimum_separation :
    ((uniformStep cPar cPick cCand)^[1] (initUniform cGrid 50 38)).sampled =
        [⟨50, 38, 0⟩, ⟨64, 30, 0⟩, ⟨56, 30, 0⟩] ∧
      uniformDone cPar ((uniformStep cPar cPick cCand)^[1] (initUniform cGrid 50 38)) ∧
      (returnedUniform cPar cPick cCand cGrid 50 38 cDelta 1 8).get? 1 = some (64, 30) ∧
      (returnedUniform cPar cPick cCand cGrid 50 38 cDelta 1 8).get? 2 = some (56, 30) ∧
      distSq ⟨64, 30, 0⟩ ⟨56, 30, 0⟩ < (cGrid.minDist : ℤ) * cGrid.minDist ∧
      ((10 : ℚ) ^ 2 ≤ 14 ^ 2 + (-8 : ℚ) ^ 2 ∧ 14 ^ 2 + (-8 : ℚ) ^ 2 < (2 * 10 : ℚ) ^ 2) ∧
      ((10 : ℚ) ^ 2 ≤ 6 ^ 2 + (-8 : ℚ) ^ 2 ∧ 6 ^ 2 + (-8 : ℚ) ^ 2 < (2 * 10 : ℚ) ^ 2) := by
  refine ⟨by decide, by decide, by decide, by decide, by decide, by norm_num, by norm_num⟩

/-- C6: the claim says an all-zero importance surface makes the weighted
sampler fall back to uniform priorities instead of dividing by zero.  The
source divides by `np.mean(self.imageWeight)` unconditionally
(ImageTriangulation.py:161); on the all-zero surface the mean is 0 and the
elementwise `0/0` yields NaN for every entry — modelled as `none`: no
defined (let alone uniform) priority surface results, so no fallback
exists in the code. -/
theorem C6_allzero_surface_normalization_undefined :
    normalizeImageWeight [[0, 0], [0, 0]] = none ∧ npMean [[0, 0], [0, 0]] = 0 := by
  have h : npMean [[0, 0], [0, 0]] = 0 := by
    norm_num [npMean]
  exact ⟨by rw [normalizeImageWeight, if_pos h], h⟩

/-- C9 (counterexample): the claim says the seed lies inside the image,
`0 ≤ x < imageWidth`.  Python `random.randint(0, imageWidth)` includes
both bounds, so `sx = 100` is a legal outcome on a 100-wide image; the
resulting seed has `x = 100`, not `< 100`, and it is nevertheless recorded
in `sampledList` (and `processingList` and the grid). -/
theorem C9_seed_can_sit_on_inclusive_bound :
    (100 : ℕ) ≤ 100 ∧
      (initUniform cGrid 100 50).sampled = [⟨100, 50, 0⟩] ∧
      (initUniform cGrid 100 50).processing = [⟨100, 50, 0⟩] ∧
      ¬((⟨100, 50, 0⟩ : Point).x < (100 : ℤ)) := by
  refine ⟨le_rfl, by decide, by decide, by decide⟩

/-- C9 (amended): the seed `Point(randint(0, imageWidth), randint(0,
imageHeight))` satisfies `0 ≤ x ≤ imageWidth` and `0 ≤ y ≤ imageHeight`
(bounds inclusive — it may sit one past the last pixel row or column), and
before the loop starts it is the sole member of `processingList` and
`sampledList` and has been inserted into the grid, in both sampler
variants. -/
theorem C9_seed_bounds_and_initial_state (g : Grid) (W H sx sy : ℕ)
    (hx : sx ≤ W) (hy : sy ≤ H) :
    (initUniform g sx sy).processing = [⟨sx, sy, 0⟩] ∧
      (initUniform g sx sy).sampled = [⟨sx, sy, 0⟩] ∧
      (initUniform g sx sy).grid = g.insert ⟨sx, sy, 0⟩ ∧
      (initWeighted g sx sy).processing = [⟨sx, sy, 0⟩] ∧
      (initWeighted g sx sy).sampled = [⟨sx, sy, 0⟩] ∧
      (initWeighted g sx sy).grid = g.insert ⟨sx, sy, 0⟩ ∧
      (initWeighted g sx sy).queue = [] ∧
      (0 : ℤ) ≤ (⟨sx, sy, 0⟩ : Point).x ∧ (⟨sx, sy, 0⟩ : Point).x ≤ (W : ℤ) ∧
      (0 : ℤ) ≤ (⟨sx, sy, 0⟩ : Point).y ∧ (⟨sx, sy, 0⟩ : Point).y ≤ (H : ℤ) := by
  refine ⟨rfl, rfl, rfl, rfl, rfl, rfl, rfl, ?_, ?_, ?_, ?_⟩ <;> simp <;> omega

/-- C9 (amended) witness at the concrete run inputs. -/
theorem C9_seed_bounds_and_initial_state_witness :
    (50 : ℕ) ≤ 100 ∧ (38 : ℕ) ≤ 100 ∧
      ((initUniform cGrid 50 38).processing = [⟨50, 38, 0⟩] ∧
        (initUniform cGrid 50 38).sampled = [⟨50, 38, 0⟩] ∧
        (initUniform cGrid 50 38).grid = cGrid.insert ⟨50, 38, 0⟩ ∧
        (initWeighted cGrid 50 38).processing = [⟨50, 38, 0⟩] ∧
        (initWeighted cGrid 50 38).sampled = [⟨50, 38, 0⟩] ∧
        (initWeighted cGrid 50 38).grid = cGrid.insert ⟨50, 38, 0⟩ ∧
        (initWeighted cGrid 50 38).queue = [] ∧
        (0 : ℤ) ≤ (⟨50, 38, 0⟩ : Point).x ∧ (⟨50, 38, 0⟩ : Point).x ≤ (100 : ℤ) ∧
        (0 : ℤ) ≤ (⟨50, 38, 0⟩ : Point).y ∧ (⟨50, 38, 0⟩ : Point).y ≤ (100 : ℤ)) :=
  ⟨by decide, by decide,
    C9_seed_bounds_and_initial_state cGrid 100 100 50 38 (by decide) (by decide)⟩

/-- C3: in every guarded outer iteration of the weighted sampler the
persistent queue (after the batch has been pushed) is drained in
non-decreasing stored-priority order — priorities were set to the negated
importance on push, so the most important candidate is popped first; every
candidate popped before the accepted one failed the grid test and is
discarded; the first passing candidate is the one accepted (appended to
`processingList` and `sampledList`, inserted into the grid) and draining
stops, the not-yet-popped candidates remaining queued (`queue' = rem`,
with the queue splitting exactly into rejected + accepted + remaining); if
no candidate passes, nothing is accepted; hence at most one point is
accepted per outer iteration. -/
theorem C3_weighted_drain_semantics (par : SamplerParams) (wt : ℤ → ℤ → ℚ)
    (pick : ℕ → ℕ) (cand : ℕ → ℕ → ℚ × ℚ) (s : WState)
    (rej : List Point) (acc : Option Point) (rem : List Point)
    (hproc : s.processing ≠ []) (hcount : s.sampled.length < par.pointCount)
    (hdrain : drain s.grid (weightedQueueAfterBatch par wt cand pick s) =
      (rej, acc, rem)) :
    List.Pairwise (fun a b => a.priority ≤ b.priority) (rej ++ acc.toList) ∧
      (∀ p ∈ rej, s.grid.checkInNeighborhood p = true) ∧
      (∀ p, acc = some p → s.grid.checkInNeighborhood p = false ∧
        (weightedStep par wt pick cand s).processing =
          removeAt s.processing (pick s.iter % s.processing.length) ++ [p] ∧
        (weightedStep par wt pick cand s).sampled = s.sampled ++ [p] ∧
        (weightedStep par wt pick cand s).grid = s.grid.insert p) ∧
      (acc = none → (weightedStep par wt pick cand s).sampled = s.sampled) ∧
      (weightedStep par wt pick cand s).queue = rem ∧
      ((weightedQueueAfterBatch par wt cand pick s : List Point) : Multiset Point) =
        ↑rej + ↑acc.toList + ↑rem ∧
      (weightedStep par wt pick cand s).sampled.length ≤ s.sampled.length + 1 := by
  have hnd : ¬ weightedDone par s := by
    intro hdone
    rcases hdone with h | h
    · exact hproc h
    · omega
  have hdA : drainAux s.grid (weightedQueueAfterBatch par wt cand pick s).length
      (weightedQueueAfterBatch par wt cand pick s) = (rej, acc, rem) := hdrain
  have hspec := drainAux_spec s.grid (weightedQueueAfterBatch par wt cand pick s).length
    (weightedQueueAfterBatch par wt cand pick s) le_rfl
  rw [hdA] at hspec
  dsimp only at hspec
  obtain ⟨hms, hrej, hacc, hsort⟩ := hspec
  cases acc with
  | some p =>
    have hw : weightedStep par wt pick cand s =
        ⟨removeAt s.processing (pick s.iter % s.processing.length) ++ [p],
         s.sampled ++ [p], s.grid.insert p, rem, s.iter + 1⟩ := by
      rw [weightedStep, if_neg hnd]
      dsimp only
      rw [hdrain]
    refine ⟨hsort, hrej, ?_, ?_, by rw [hw], hms, ?_⟩
    · intro p' hp'
      obtain rfl : p = p' := by simpa using hp'
      exact ⟨hacc p rfl, by rw [hw], by rw [hw], by rw [hw]⟩
    · intro hnone
      simp at hnone
    · rw [hw]
      simp
  | none =>
    have hw : weightedStep par wt pick cand s =
        ⟨removeAt s.processing (pick s.iter % s.processing.length),
         s.sampled, s.grid, rem, s.iter + 1⟩ := by
      rw [weightedStep, if_neg hnd]
      dsimp only
      rw [hdrain]
    refine ⟨hsort, hrej, ?_, fun _ => by rw [hw], by rw [hw], hms, ?_⟩
    · intro p hp
      simp at hp
    · rw [hw]
      simp

/-- C3 witness: concrete guarded iteration (seed state, importance
surface identically 0, the two concrete candidates): the drain pops the
first candidate, accepts it, rejects none, and leaves the second one
queued. -/
theorem C3_weighted_drain_semantics_witness :
    ((initWeighted cGrid 50 38).processing ≠ [] ∧
      (initWeighted cGrid 50 38).sampled.length < cPar.pointCount ∧
      drain (initWeighted cGrid 50 38).grid
        (weightedQueueAfterBatch cPar (fun _ _ => 0) cCand cPick
          (initWeighted cGrid 50 38)) =
        ([], some ⟨64, 30, 0⟩, [⟨56, 30, 0⟩])) ∧
    (List.Pairwise (fun a b => a.priority ≤ b.priority)
        ([] ++ (some (⟨64, 30, 0⟩ : Point)).toList) ∧
      (∀ p ∈ ([] : List Point),
        (initWeighted cGrid 50 38).grid.checkInNeighborhood p = true) ∧
      (∀ p, some (⟨64, 30, 0⟩ : Point) = some p →
        (initWeighted cGrid 50 38).grid.checkInNeighborhood p = false ∧
        (weightedStep cPar (fun _ _ => 0) cPick cCand
            (initWeighted cGrid 50 38)).processing =
          removeAt (initWeighted cGrid 50 38).processing
            (cPick (initWeighted cGrid 50 38).iter %
              (initWeighted cGrid 50 38).processing.length) ++ [p] ∧
        (weightedStep cPar (fun _ _ => 0) cPick cCand
            (initWeighted cGrid 50 38)).sampled =
          (initWeighted cGrid 50 38).sampled ++ [p] ∧
        (weightedStep cPar (fun _ _ => 0) cPick cCand
            (initWeighted cGrid 50 38)).grid =
          (initWeighted cGrid 50 38).grid.insert p) ∧
      (some (⟨64, 30, 0⟩ : Point) = none →
        (weightedStep cPar (fun _ _ => 0) cPick cCand
            (initWeighted cGrid 50 38)).sampled =
          (initWeighted cGrid 50 38).sampled) ∧
      (weightedStep cPar (fun _ _ => 0) cPick cCand
          (initWeighted cGrid 50 38)).queue = [⟨56, 30, 0⟩] ∧
      ((weightedQueueAfterBatch cPar (fun _ _ => 0) cCand cPick
          (initWeighted cGrid 50 38) : List Point) : Multiset Point) =
        ↑([] : List Point) + ↑(some (⟨64, 30, 0⟩ : Point)).toList +
          ↑([⟨56, 30, 0⟩] : List Point) ∧
      (weightedStep cPar (fun _ _ => 0) cPick cCand
          (initWeighted cGrid 50 38)).sampled.length ≤
        (initWeighted cGrid 50 38).sampled.length + 1) :=
  ⟨⟨by decide, by decide, by decide⟩,
    C3_weighted_drain_semantics cPar (fun _ _ => 0) cPick cCand
      (initWeighted cGrid 50 38) [] (some ⟨64, 30, 0⟩) [⟨56, 30, 0⟩]
      (by decide) (by decide) (by decide)⟩

/-- C4: both sampler variants terminate in finitely many steps, for every
image, minimum distance, target count, and random tape: the sampling loops
reach a state where the loop guard fails (strictly decreasing measures),
and the boundary walk that completes each variant exits within `W` rounds
since every cursor delta is at least `minDist ≥ 1`. -/
theorem C4_samplers_terminate (par : SamplerParams) (wt : ℤ → ℤ → ℚ)
    (pick cpick : ℕ → ℕ) (cand ccand : ℕ → ℕ → ℚ × ℚ) (g gw : Grid)
    (sx sy sxw syw : ℕ) (δ : ℕ → ℚ × ℚ × ℚ × ℚ) (m : ℕ)
    (hm : 1 ≤ m) (hδ : ∀ i, (m : ℚ) ≤ (δ i).1) :
    (∃ n, uniformDone par ((uniformStep par pick cand)^[n] (initUniform g sx sy))) ∧
      (∃ n, weightedDone par
        ((weightedStep par wt cpick ccand)^[n] (initWeighted gw sxw syw))) ∧
      (∃ n, boundaryDone par.W par.H ((boundaryStep par.W par.H δ)^[n] boundaryInit)) :=
  ⟨uniform_reaches_done par pick cand _,
    weighted_reaches_done par wt cpick ccand _,
    boundary_reaches_done par.W par.H m δ hm hδ⟩

/-- C4 witness at the concrete run inputs (minDist 10, deltas all 15). -/
theorem C4_samplers_terminate_witness :
    (1 ≤ cGrid.minDist) ∧ (∀ i, (cGrid.minDist : ℚ) ≤ (cDelta i).1) ∧
      ((∃ n, uniformDone cPar ((uniformStep cPar cPick cCand)^[n] (initUniform cGrid 50 38))) ∧
        (∃ n, weightedDone cPar
          ((weightedStep cPar (fun _ _ => 0) cPick cCand)^[n] (initWeighted cGrid 50 38))) ∧
        (∃ n, boundaryDone cPar.W cPar.H
          ((boundaryStep cPar.W cPar.H cDelta)^[n] boundaryInit))) :=
  ⟨by decide, fun i => by norm_num [cDelta, cGrid, Grid.make],
    C4_samplers_terminate cPar (fun _ _ => 0) cPick cPick cCand cCand cGrid cGrid
      50 38 50 38 cDelta cGrid.minDist (by decide)
      (fun i => by norm_num [cDelta, cGrid, Grid.make])⟩

/-- C10: size bounds on the non-boundary output.  The uniform variant's
`sampledList` never exceeds `max 1 (pointCount - 1 + K)` (a whole batch
can still be accepted after the guard last passed), the weighted variant's
never exceeds `max 1 pointCount` (at most one acceptance per iteration),
and the uniform variant can indeed exceed `pointCount`: with target 2 and
2 candidates per step, the concrete run below accepts both candidates of
the first batch and finishes with 3 non-boundary points. -/
theorem C10_output_size_bounds :
    (∀ (par : SamplerParams) (pick : ℕ → ℕ) (cand : ℕ → ℕ → ℚ × ℚ) (g : Grid)
        (sx sy n : ℕ),
      (((uniformStep par pick cand)^[n] (initUniform g sx sy)).sampled.length : ℤ) ≤
        max 1 ((par.pointCount : ℤ) - 1 + par.K)) ∧
      (∀ (par : SamplerParams) (wt : ℤ → ℤ → ℚ) (pick : ℕ → ℕ) (cand : ℕ → ℕ → ℚ × ℚ)
          (g : Grid) (sx sy n : ℕ),
        (((weightedStep par wt pick cand)^[n] (initWeighted g sx sy)).sampled.length : ℤ) ≤
          max 1 (par.pointCount : ℤ)) ∧
      (((uniformStep ⟨2, 2, 100, 100, 10⟩ cPick cExceed)^[1]
          (initUniform cGrid 50 50)).sampled.length = 3 ∧
        uniformDone ⟨2, 2, 100, 100, 10⟩
          ((uniformStep ⟨2, 2, 100, 100, 10⟩ cPick cExceed)^[1] (initUniform cGrid 50 50)) ∧
        (⟨2, 2, 100, 100, 10⟩ : SamplerParams).pointCount < 3) := by
  refine ⟨?_, ?_, by decide, by decide, by decide⟩
  · intro par pick cand g sx sy n
    have h := uniform_sampled_length_le par pick cand g sx sy n
    omega
  · intro par wt pick cand g sx sy n
    have h := weighted_sampled_length_le par wt pick cand g sx sy n
    omega

/-- C5 (counterexample): the claim says every candidate generated by
`generateRandomPointAround(minDist)` lies at distance at least `minDist`
from its parent.  With `minDist = 3` and the annulus offset
`(15/7, 15/7)` (norm `15*sqrt 2/7 ≈ 3.03 ∈ [3, 6)`), the `int(...)`
truncation yields the candidate `(2, 2)` whose squared distance from the
parent is `8 < 9`: truncation breaks the by-construction bound. -/
theorem C5_truncation_can_fall_below_minDist :
    (3 : ℚ) ^ 2 ≤ (15 / 7 : ℚ) ^ 2 + (15 / 7 : ℚ) ^ 2 ∧
      (15 / 7 : ℚ) ^ 2 + (15 / 7 : ℚ) ^ 2 < (2 * 3 : ℚ) ^ 2 ∧
      distSq ⟨0, 0, 0⟩ (generateRandomPointAround ⟨0, 0, 0⟩ (15 / 7) (15 / 7)) <
        (3 : ℤ) * 3 := by
  refine ⟨by norm_num, by norm_num, ?_⟩
  have hfl : truncQ (15 / 7 : ℚ) = 2 := by
    rw [truncQ, if_pos (by norm_num)]
    rw [Int.floor_eq_iff]
    constructor <;> norm_num
  simp only [distSq, generateRandomPointAround, hfl]
  norm_num

/-- C5 (amended): every candidate of `generateRandomPointAround` lies at
Euclidean distance strictly greater than `minDist - sqrt 2` from its
parent: the annulus radius is at least `minDist` and the coordinatewise
`int(...)` truncation moves the offset by less than 1 per axis, i.e. by
less than `sqrt 2` in norm.  (`(dx, dy)` is the pre-truncation offset,
whose squared norm is the squared radius.) -/
theorem C5_candidate_distance_exceeds_minDist_sub_sqrt2 (p : Point) (m : ℕ)
    (dx dy : ℚ) (h : (m : ℚ) ^ 2 ≤ dx ^ 2 + dy ^ 2) :
    (m : ℝ) - Real.sqrt 2 <
      Real.sqrt ((distSq p (generateRandomPointAround p dx dy) : ℤ) : ℝ) := by
  have hds : distSq p (generateRandomPointAround p dx dy) =
      truncQ dx * truncQ dx + truncQ dy * truncQ dy := by
    simp only [distSq, generateRandomPointAround]
    ring
  set a : ℝ := |((truncQ dx : ℚ) : ℝ)| with hadef
  set b : ℝ := |((truncQ dy : ℚ) : ℝ)| with hbdef
  set u : ℝ := |((dx : ℚ) : ℝ)| with hudef
  set v : ℝ := |((dy : ℚ) : ℝ)| with hvdef
  have ha0 : 0 ≤ a := abs_nonneg _
  have hb0 : 0 ≤ b := abs_nonneg _
  have hu0 : 0 ≤ u := abs_nonneg _
  have hv0 : 0 ≤ v := abs_nonneg _
  have ha1 : a ≤ u := by
    rw [hadef, hudef]
    exact_mod_cast truncQ_abs_le dx
  have hb1 : b ≤ v := by
    rw [hbdef, hvdef]
    exact_mod_cast truncQ_abs_le dy
  have ha2 : u < a + 1 := by
    rw [hadef, hudef]
    exact_mod_cast abs_lt_truncQ_abs_add_one dx
  have hb2 : v < b + 1 := by
    rw [hbdef, hvdef]
    exact_mod_cast abs_lt_truncQ_abs_add_one dy
  have hmr : (m : ℝ) ^ 2 ≤ u ^ 2 + v ^ 2 := by
    have hcast : ((m : ℝ)) ^ 2 ≤ ((dx : ℝ)) ^ 2 + ((dy : ℝ)) ^ 2 := by
      exact_mod_cast h
    rwa [hudef, hvdef, sq_abs, sq_abs]
  have hgoal : ((distSq p (generateRandomPointAround p dx dy) : ℤ) : ℝ) = a ^ 2 + b ^ 2 := by
    rw [hds, hadef, hbdef, sq_abs, sq_abs]
    push_cast
    ring
  rw [hgoal]
  have hstep1 : (m : ℝ) ≤ Real.sqrt (u ^ 2 + v ^ 2) := by
    have := Real.sqrt_le_sqrt hmr
    rwa [Real.sqrt_sq (by positivity : (0 : ℝ) ≤ (m : ℝ))] at this
  have hstep2 : Real.sqrt (u ^ 2 + v ^ 2) < Real.sqrt ((a + 1) ^ 2 + (b + 1) ^ 2) := by
    apply Real.sqrt_lt_sqrt (by positivity)
    nlinarith
  have hstep3 : Real.sqrt ((a + 1) ^ 2 + (b + 1) ^ 2) ≤
      Real.sqrt (a ^ 2 + b ^ 2) + Real.sqrt 2 := by
    have hs2 : (Real.sqrt (a ^ 2 + b ^ 2)) ^ 2 = a ^ 2 + b ^ 2 :=
      Real.sq_sqrt (by positivity)
    have hr2 : (Real.sqrt 2) ^ 2 = 2 := Real.sq_sqrt (by norm_num)
    have hcross : a + b ≤ Real.sqrt 2 * Real.sqrt (a ^ 2 + b ^ 2) := by
      have h4 : (a + b) ^ 2 ≤ 2 * (a ^ 2 + b ^ 2) := by nlinarith [sq_nonneg (a - b)]
      have h5 : a + b = Real.sqrt ((a + b) ^ 2) := (Real.sqrt_sq (by positivity)).symm
      rw [h5, ← Real.sqrt_mul (by norm_num : (0 : ℝ) ≤ 2)]
      exact Real.sqrt_le_sqrt h4
    have h3 : (a + 1) ^ 2 + (b + 1) ^ 2 ≤
        (Real.sqrt (a ^ 2 + b ^ 2) + Real.sqrt 2) ^ 2 := by nlinarith
    have := Real.sqrt_le_sqrt h3
    rwa [Real.sqrt_sq (by positivity)] at this
  linarith

/-- C5 (amended) witness: parent at the origin, `minDist = 3`, offset
`(3, 0)`. -/
theorem C5_candidate_distance_exceeds_minDist_sub_sqrt2_witness :
    ((3 : ℕ) : ℚ) ^ 2 ≤ (3 : ℚ) ^ 2 + (0 : ℚ) ^ 2 ∧
      ((3 : ℕ) : ℝ) - Real.sqrt 2 <
        Real.sqrt ((distSq ⟨0, 0, 0⟩ (generateRandomPointAround ⟨0, 0, 0⟩ 3 0) : ℤ) : ℝ) :=
  ⟨by norm_num,
    C5_candidate_distance_exceeds_minDist_sub_sqrt2 ⟨0, 0, 0⟩ 3 3 0 (by norm_num)⟩

/-- C7: the color mapping of `calculateTriColors` has exactly one entry
per simplex index in `[0, triangleCount)` (the list has length
`triangleCount`, entry `t` belonging to simplex `t`); a simplex covering
zero pixels receives the reindex fill value 0 (black); and a pixel whose
point location is `-1` ("outside the hull") belongs to no simplex's pixel
group. -/
theorem C7_tri_colors_complete (W H : ℕ) (img : ℕ → ℕ → ℚ × ℚ × ℚ)
    (fs : ℕ → ℕ → ℤ) (count : ℕ) (agg : List ℚ → ℚ) :
    (calculateTriColors W H img fs count agg).length = count ∧
      (∀ t : ℕ, t < count → pixelsOfTriangle W H fs (t : ℤ) = [] →
        (calculateTriColors W H img fs count agg).get? t = some (0, 0, 0)) ∧
      (∀ x y t : ℕ, fs x y = -1 → (x, y) ∉ pixelsOfTriangle W H fs (t : ℤ)) := by
  refine ⟨by simp [calculateTriColors], ?_, ?_⟩
  · intro t ht hempty
    unfold calculateTriColors
    rw [List.get?_map, List.get?_range ht]
    simp [hempty]
  · intro x y t hfs hmem
    rw [pixelsOfTriangle, List.mem_filter] at hmem
    have h2 := hmem.2
    simp only [decide_eq_true_eq] at h2
    rw [hfs] at h2
    omega

/-- C7 witness: a 2 x 2 image whose pixel `(0, 0)` is outside the hull
and whose simplex 1 covers no pixel. -/
theorem C7_tri_colors_complete_witness :
    (calculateTriColors 2 2 (fun _ _ => (1, 2, 3))
        (fun x y => if x = 0 ∧ y = 0 then -1 else 0) 2 meanQ).length = 2 ∧
      pixelsOfTriangle 2 2 (fun x y => if x = 0 ∧ y = 0 then -1 else 0) ((1 : ℕ) : ℤ) = [] ∧
      (calculateTriColors 2 2 (fun _ _ => (1, 2, 3))
        (fun x y => if x = 0 ∧ y = 0 then -1 else 0) 2 meanQ).get? 1 = some (0, 0, 0) ∧
      (0, 0) ∉ pixelsOfTriangle 2 2 (fun x y => if x = 0 ∧ y = 0 then -1 else 0) ((0 : ℕ) : ℤ) :=
  ⟨(C7_tri_colors_complete 2 2 (fun _ _ => (1, 2, 3))
      (fun x y => if x = 0 ∧ y = 0 then -1 else 0) 2 meanQ).1,
    by decide,
    (C7_tri_colors_complete 2 2 (fun _ _ => (1, 2, 3))
      (fun x y => if x = 0 ∧ y = 0 then -1 else 0) 2 meanQ).2.1 1 (by decide) (by decide),
    (C7_tri_colors_complete 2 2 (fun _ _ => (1, 2, 3))
      (fun x y => if x = 0 ∧ y = 0 then -1 else 0) 2 meanQ).2.2 0 0 0 (by decide)⟩

/-- C8 (counterexample): the claim says the returned color equals the
per-channel mean (resp. median) of all pixel colors; but
`calculateTriColors` divides the aggregate by 256
(ImageTriangulation.py:244): for a 1-pixel image of color `(255, 0, 0)`
covered by one simplex, the mean is 255 while the returned channel is
`255/256`. -/
theorem C8_output_divided_by_256 :
    (calculateTriColors 1 1 (fun _ _ => ((255 : ℚ), (0 : ℚ), (0 : ℚ)))
        (fun _ _ => 0) 1 meanQ).get? 0 = some (255 / 256, 0, 0) ∧
      meanQ [(255 : ℚ)] = 255 ∧ (255 / 256 : ℚ) ≠ 255 := by
  refine ⟨?_, by norm_num [meanQ], by norm_num⟩
  rw [calcTriColors_single_simplex 1 1 (fun _ _ => ((255 : ℚ), (0 : ℚ), (0 : ℚ)))
    meanQ le_rfl le_rfl]
  norm_num [pixelCoords, meanQ, List.range_succ]

/-- C8 (amended): for a triangulation consisting of a single simplex
containing every pixel, the single returned color is the per-channel mean
(resp. per-channel median) of all pixel colors divided by 256 (the
function normalizes its output by 256). -/
theorem C8_single_simplex_mean_median (W H : ℕ) (img : ℕ → ℕ → ℚ × ℚ × ℚ)
    (hW : 1 ≤ W) (hH : 1 ≤ H) :
    calculateTriColors W H img (fun _ _ => 0) 1 meanQ =
      [(meanQ ((pixelCoords W H).map fun p => (img p.2 p.1).1) / 256,
        meanQ ((pixelCoords W H).map fun p => (img p.2 p.1).2.1) / 256,
        meanQ ((pixelCoords W H).map fun p => (img p.2 p.1).2.2) / 256)] ∧
      calculateTriColors W H img (fun _ _ => 0) 1 medianQ =
        [(medianQ ((pixelCoords W H).map fun p => (img p.2 p.1).1) / 256,
          medianQ ((pixelCoords W H).map fun p => (img p.2 p.1).2.1) / 256,
          medianQ ((pixelCoords W H).map fun p => (img p.2 p.1).2.2) / 256)] :=
  ⟨calcTriColors_single_simplex W H img meanQ hW hH,
    calcTriColors_single_simplex W H img medianQ hW hH⟩

/-- C8 (amended) witness at a 1 x 1 image. -/
theorem C8_single_simplex_mean_median_witness :
    (1 : ℕ) ≤ 1 ∧
      (calculateTriColors 1 1 (fun _ _ => ((255 : ℚ), (0 : ℚ), (0 : ℚ)))
          (fun _ _ => 0) 1 meanQ =
        [(meanQ ((pixelCoords 1 1).map
            fun p => ((fun _ _ => ((255 : ℚ), (0 : ℚ), (0 : ℚ))) p.2 p.1).1) / 256,
          meanQ ((pixelCoords 1 1).map
            fun p => ((fun _ _ => ((255 : ℚ), (0 : ℚ), (0 : ℚ))) p.2 p.1).2.1) / 256,
          meanQ ((pixelCoords 1 1).map
            fun p => ((fun _ _ => ((255 : ℚ), (0 : ℚ), (0 : ℚ))) p.2 p.1).2.2) / 256)] ∧
        calculateTriColors 1 1 (fun _ _ => ((255 : ℚ), (0 : ℚ), (0 : ℚ)))
            (fun _ _ => 0) 1 medianQ =
          [(medianQ ((pixelCoords 1 1).map
              fun p => ((fun _ _ => ((255 : ℚ), (0 : ℚ), (0 : ℚ))) p.2 p.1).1) / 256,
            medianQ ((pixelCoords 1 1).map
              fun p => ((fun _ _ => ((255 : ℚ), (0 : ℚ), (0 : ℚ))) p.2 p.1).2.1) / 256,
            medianQ ((pixelCoords 1 1).map
              fun p => ((fun _ _ => ((255 : ℚ), (0 : ℚ), (0 : ℚ))) p.2 p.1).2.2) / 256)]) :=
  ⟨le_rfl,
    C8_single_simplex_mean_median 1 1 (fun _ _ => ((255 : ℚ), (0 : ℚ), (0 : ℚ)))
      le_rfl le_rfl⟩
